import Mathlib

/-!
Shallow embedding of the AFL Elo rating engine from
`scripts/afl_elo_training.py` and `scripts/afl_elo_predictions.py`.

Python floats are modelled as real numbers; `10 ** x` is `Real.rpow`,
`np.log1p x` is `Real.log (1 + x)`, `np.sign` is `Real.sign`.
The mutable dict `self.team_ratings` is modelled as a `RatingStore`:
a finite set of registered team names together with a rating function;
dict insertion/overwrite becomes `Function.update` plus `insert` on the
key set.
-/

open Classical

/-- The six model parameters fixed in `AFLEloModel.__init__`. -/
structure EloParams where
  base_rating : ℝ
  k_factor : ℝ
  home_advantage : ℝ
  margin_factor : ℝ
  season_carryover : ℝ
  max_margin : ℝ

/-- The `self.team_ratings` dict: registered team names plus their ratings.
`rating t` is meaningful only for `t ∈ teams`. -/
structure RatingStore where
  teams : Finset String
  rating : String → ℝ

/-- Dict read `self.team_ratings.get(team, self.base_rating)`: no insertion. -/
def getRating (p : EloParams) (s : RatingStore) (t : String) : ℝ :=
  if t ∈ s.teams then s.rating t else p.base_rating

/-- Lazy registration: `if team not in self.team_ratings: self.team_ratings[team] = self.base_rating`. -/
def registerTeam (p : EloParams) (s : RatingStore) (t : String) : RatingStore :=
  if t ∈ s.teams then s else ⟨insert t s.teams, Function.update s.rating t p.base_rating⟩

/-- Dict assignment `self.team_ratings[team] = r` (inserts or overwrites). -/
def setRating (s : RatingStore) (t : String) (r : ℝ) : RatingStore :=
  ⟨insert t s.teams, Function.update s.rating t r⟩

/-- Sum of all stored team ratings. -/
def storeSum (s : RatingStore) : ℝ :=
  ∑ t ∈ s.teams, s.rating t

/-- The logistic formula of `calculate_win_probability`:
`1.0 / (1.0 + 10 ** (-rating_diff / 400))` with
`rating_diff = (home_rating + home_advantage) - away_rating`. -/
noncomputable def winProbFormula (rh adv ra : ℝ) : ℝ :=
  1 / (1 + (10 : ℝ) ^ (-((rh + adv) - ra) / 400))

/-- Method `AFLEloModel.calculate_win_probability` (identical formula in
`AFLEloPredictor.calculate_win_probability` and `SimpleEloUpdater`):
reads both ratings with `.get` (no mutation) and applies the logistic map. -/
noncomputable def winProbability (p : EloParams) (s : RatingStore) (home away : String) : ℝ :=
  winProbFormula (getRating p s home) p.home_advantage (getRating p s away)

/-- Method `_cap_margin`: `min(abs(margin), self.max_margin) * np.sign(margin)`.
The same expression is written inline in `SimpleEloUpdater.update_ratings`. -/
noncomputable def cappedMargin (p : EloParams) (margin : ℝ) : ℝ :=
  min |margin| p.max_margin * Real.sign margin

/-- The margin multiplier of `update_ratings`: `1.0` unless
`margin_factor > 0`, in which case
`log1p(abs(capped_margin) * margin_factor) / log1p(max_margin * margin_factor)`. -/
noncomputable def marginMultiplier (p : EloParams) (margin : ℝ) : ℝ :=
  if p.margin_factor > 0 then
    Real.log (1 + |cappedMargin p margin| * p.margin_factor) /
      Real.log (1 + p.max_margin * p.margin_factor)
  else 1

/-- The `actual_result` value: `1.0` if `hscore > ascore` else `0.0`, overwritten
to `0.5` on a draw (`SimpleEloUpdater` writes the same three-way split
directly). -/
def actualResult (hscore ascore : ℤ) : ℝ :=
  if hscore > ascore then 1 else if hscore = ascore then 0.5 else 0

/-- The tag stored in the prediction record field `actual_result`. -/
inductive ResultTag
  | home_win
  | away_win
  | draw
deriving DecidableEq

/-- The fields of the `prediction_info` dict built by
`AFLEloModel.update_ratings` that the verification uses (string/identifier
metadata such as venue and round is carried through unchanged and omitted). -/
structure PredInfo where
  home_team : String
  away_team : String
  pre_match_home_rating : ℝ
  pre_match_away_rating : ℝ
  home_win_probability : ℝ
  away_win_probability : ℝ
  predicted_winner : String
  actual_result : ResultTag
  margin : ℝ
  rating_change : ℝ

/-- Method `AFLEloModel.update_ratings`: register both teams, read ratings,
compute the win probability, the (capped, log-damped) margin-scaled Elo
delta, apply `+rating_change` to home and `-rating_change` to away, and
build the prediction record. Returns the updated store and the record. -/
noncomputable def update_ratings (p : EloParams) (s : RatingStore)
    (home away : String) (hscore ascore : ℤ) : RatingStore × PredInfo :=
  let s1 := registerTeam p s home
  let s2 := registerTeam p s1 away
  let home_rating := s2.rating home
  let away_rating := s2.rating away
  let home_win_prob := winProbability p s2 home away
  let actual := actualResult hscore ascore
  let margin : ℝ := ((hscore - ascore : ℤ) : ℝ)
  let rating_change := p.k_factor * marginMultiplier p margin * (actual - home_win_prob)
  let s3 := setRating s2 home (s2.rating home + rating_change)
  let s4 := setRating s3 away (s3.rating away - rating_change)
  (s4,
    { home_team := home
      away_team := away
      pre_match_home_rating := home_rating
      pre_match_away_rating := away_rating
      home_win_probability := home_win_prob
      away_win_probability := 1 - home_win_prob
      predicted_winner := if home_win_prob > 0.5 then home else away
      actual_result := if hscore > ascore then ResultTag.home_win
        else if hscore < ascore then ResultTag.away_win else ResultTag.draw
      margin := margin
      rating_change := rating_change })

/-- Method `SimpleEloUpdater.update_ratings` in `afl_elo_predictions.py`: the same
register / probability / capped-margin / delta computation, applying
`+rating_change` to home and `-rating_change` to away; returns the store
and the `rating_change` it returns. -/
noncomputable def simpleUpdateRatings (p : EloParams) (s : RatingStore)
    (home away : String) (hscore ascore : ℤ) : RatingStore × ℝ :=
  let s1 := registerTeam p s home
  let s2 := registerTeam p s1 away
  let home_win_prob := winProbability p s2 home away
  let actual := actualResult hscore ascore
  let margin : ℝ := ((hscore - ascore : ℤ) : ℝ)
  let rating_change := p.k_factor * marginMultiplier p margin * (actual - home_win_prob)
  let s3 := setRating s2 home (s2.rating home + rating_change)
  let s4 := setRating s3 away (s3.rating away - rating_change)
  (s4, rating_change)

/-- Method `AFLEloModel.apply_season_carryover`: for every registered team,
`rating ← base_rating + season_carryover * (rating − base_rating)`.
(The `yearly_ratings` snapshot it also stores does not touch ratings.) -/
def applySeasonCarryover (p : EloParams) (s : RatingStore) : RatingStore :=
  ⟨s.teams, fun t => if t ∈ s.teams
    then p.base_rating + p.season_carryover * (s.rating t - p.base_rating)
    else s.rating t⟩

/-- One row of the training data frame: scores, season year, and the
identifying metadata carried through unchanged. -/
structure MatchRec where
  match_id : ℤ
  home_team : String
  away_team : String
  hscore : ℤ
  ascore : ℤ
  year : ℤ
deriving DecidableEq

/-- One step of the training loop, for auditing when regression to the
baseline is applied relative to match updates. -/
inductive TrainEvent
  | carryover (year : ℤ)
  | matchUpdate (m : MatchRec)
deriving DecidableEq

/-- True exactly on season-carryover events. -/
def isCarryover : TrainEvent → Bool
  | TrainEvent.carryover _ => true
  | TrainEvent.matchUpdate _ => false

/-- The body of the `for _, match in data.iterrows()` loop of
`train_elo_model` once `prev_year` holds a year: a carryover precedes the
match update exactly when the year of the match differs from `prev_year`. -/
def trainEventsGo (prev : ℤ) : List MatchRec → List TrainEvent
  | [] => []
  | m :: rest =>
      (if m.year ≠ prev then [TrainEvent.carryover m.year] else []) ++
        TrainEvent.matchUpdate m :: trainEventsGo m.year rest

/-- The event trace of the `train_elo_model` loop: `prev_year` starts as
`None`, so the first match triggers no carryover. -/
def trainEvents : List MatchRec → List TrainEvent
  | [] => []
  | m :: rest => TrainEvent.matchUpdate m :: trainEventsGo m.year rest

/-- The `train_elo_model` loop with the rating store threaded through,
also emitting the event trace, once `prev_year` holds a year: on a year
change it applies `apply_season_carryover` before calling
`update_ratings` on the match (the `save_yearly_ratings` snapshot it
also takes does not touch ratings). -/
noncomputable def trainLoopGo (p : EloParams) :
    ℤ → RatingStore → List MatchRec → RatingStore × List TrainEvent
  | _, s, [] => (s, [])
  | prev, s, m :: rest =>
      let s1 := if m.year ≠ prev then applySeasonCarryover p s else s
      let s2 := (update_ratings p s1 m.home_team m.away_team m.hscore m.ascore).1
      let r := trainLoopGo p m.year s2 rest
      (r.1, (if m.year ≠ prev then [TrainEvent.carryover m.year] else []) ++
        TrainEvent.matchUpdate m :: r.2)

/-- The match-processing loop of `train_elo_model`: `prev_year` starts
as `None`, so the guard `prev_year is not None and match[year] != prev_year`
is false for the first match and no carryover precedes it. -/
noncomputable def train_elo_model (p : EloParams) (s : RatingStore) :
    List MatchRec → RatingStore × List TrainEvent
  | [] => (s, [])
  | m :: rest =>
      let s2 := (update_ratings p s m.home_team m.away_team m.hscore m.ascore).1
      let r := trainLoopGo p m.year s2 rest
      (r.1, TrainEvent.matchUpdate m :: r.2)

/-- Number of adjacent pairs of matches with differing season years,
starting the comparison from year `y`. -/
def transitionsFrom (y : ℤ) : List MatchRec → ℕ
  | [] => 0
  | m :: rest => (if m.year ≠ y then 1 else 0) + transitionsFrom m.year rest

/-- Number of season transitions in the ordered match list: adjacent
pairs whose years differ. -/
def countTransitions : List MatchRec → ℕ
  | [] => 0
  | m :: rest => transitionsFrom m.year rest

/-- One `y_true` entry of `evaluate_model`:
`1` if `actual_result` is `home_win`, `0.5` if it is `draw`, else `0`. -/
def evalYTrue (r : ResultTag) : ℝ :=
  if r = ResultTag.home_win then 1 else if r = ResultTag.draw then 0.5 else 0

/-- One `binary_predictions` entry of `evaluate_model`: `1 if prob >= 0.5 else 0`. -/
noncomputable def evalBinaryPred (prob : ℝ) : ℕ :=
  if prob ≥ 0.5 then 1 else 0

/-- The per-match condition summed by the accuracy metric of `evaluate_model`:
`(true == 1 and pred == 1) or (true == 0 and pred == 0) or (true == 0.5)`. -/
def evalCorrect (t : ℝ) (bp : ℕ) : Prop :=
  (t = 1 ∧ bp = 1) ∨ (t = 0 ∧ bp = 0) ∨ t = 0.5

/-- The `accuracy` metric of `AFLEloModel.evaluate_model`: with no
predictions it reports `0`; otherwise the fraction of predictions
satisfying `evalCorrect` on (`y_true`, thresholded prediction). -/
noncomputable def evalAccuracy (preds : List PredInfo) : ℝ :=
  if preds = [] then 0
  else (preds.countP (fun pr => decide (evalCorrect (evalYTrue pr.actual_result)
    (evalBinaryPred pr.home_win_probability))) : ℝ) / preds.length

/-- The prediction dict built by `AFLEloPredictor.predict_match`
(rating fields under `include_ratings` omitted). -/
structure PredictRecord where
  home_team : String
  away_team : String
  home_win_probability : ℝ
  away_win_probability : ℝ
  predicted_winner : String
  confidence : ℝ

/-- Method `AFLEloPredictor.predict_match`: registers unseen teams at the base
rating, computes the win probability, and builds the prediction record;
`predicted_winner` is `home_team if home_win_prob > 0.5 else away_team`. -/
noncomputable def predict_match (p : EloParams) (s : RatingStore)
    (home away : String) : RatingStore × PredictRecord :=
  let s1 := registerTeam p s home
  let s2 := registerTeam p s1 away
  let home_win_prob := winProbability p s2 home away
  (s2,
    { home_team := home
      away_team := away
      home_win_probability := home_win_prob
      away_win_probability := 1 - home_win_prob
      predicted_winner := if home_win_prob > 0.5 then home else away
      confidence := max home_win_prob (1 - home_win_prob) })

/-- The `parameters` sub-document of a model file; each field is `none`
when the corresponding required key is absent. -/
structure ParamsDoc where
  base_rating : Option ℝ
  k_factor : Option ℝ
  home_advantage : Option ℝ
  margin_factor : Option ℝ
  season_carryover : Option ℝ
  max_margin : Option ℝ

/-- A parsed model file: `none` fields model a document lacking the
`parameters` or `team_ratings` keys; the whole document is `none` for a
missing or unparseable file. -/
structure ModelDoc where
  parameters : Option ParamsDoc
  team_ratings : Option (List (String × ℝ))

/-- The predictor state that `load_model` installs on success. -/
structure LoadedModel where
  params : EloParams
  team_ratings : List (String × ℝ)

/-- The `try` block of `AFLEloPredictor.load_model`: each key access in
order; the first missing key aborts the block. In the Python source the
attribute assignments happen in this same order with `team_ratings`
assigned last, so any failure leaves the predictor without a
`team_ratings` attribute; the state is therefore modelled all-or-nothing. -/
def loadModelState (doc : Option ModelDoc) : Option LoadedModel :=
  match doc with
  | none => none
  | some d =>
    match d.parameters with
    | none => none
    | some pd =>
      match pd.base_rating, pd.k_factor, pd.home_advantage, pd.margin_factor,
            pd.season_carryover, pd.max_margin, d.team_ratings with
      | some br, some kf, some ha, some mf, some sc, some mm, some tr =>
          some ⟨⟨br, kf, ha, mf, sc, mm⟩, tr⟩
      | _, _, _, _, _, _, _ => none

/-- Method `AFLEloPredictor.load_model`: returns `True` and the installed state
on success, or catches the exception and returns `False` with no state
installed — no default parameters or ratings are substituted.
`AFLEloPredictor.__init__` just calls this, so the pair is also the
state of a freshly constructed predictor. -/
def load_model (doc : Option ModelDoc) : Bool × Option LoadedModel :=
  match loadModelState doc with
  | some m => (true, some m)
  | none => (false, none)

/-- Method `AFLEloPredictor.calculate_win_probability` as reached through a
constructed predictor: with no loaded state the attribute accesses fail
(`none`); otherwise the logistic formula over `team_ratings.get`. -/
noncomputable def predictorWinProbability (st : Option LoadedModel)
    (home away : String) : Option ℝ :=
  st.map fun m =>
    winProbFormula ((m.team_ratings.lookup home).getD m.params.base_rating)
      m.params.home_advantage ((m.team_ratings.lookup away).getD m.params.base_rating)

/-- A failing model document: missing file / unparseable document, or a
document lacking `parameters`, one of the six required parameter keys,
or `team_ratings`. -/
def docBad (doc : Option ModelDoc) : Prop :=
  match doc with
  | none => True
  | some d =>
    match d.parameters with
    | none => True
    | some pd => pd.base_rating = none ∨ pd.k_factor = none ∨
        pd.home_advantage = none ∨ pd.margin_factor = none ∨
        pd.season_carryover = none ∨ pd.max_margin = none ∨ d.team_ratings = none

/-- The `param_grid` dict passed to `parameter_tuning`. -/
structure ParamGrid where
  base_rating : List ℝ
  k_factor : List ℝ
  home_advantage : List ℝ
  margin_factor : List ℝ
  season_carryover : List ℝ
  max_margin : List ℝ

/-- The nested loops of `parameter_tuning` that build
`param_combinations`: the five inner dimensions take every grid value,
while `base_rating` is always the first grid value (index `[0]`, `headI` here). -/
def paramCombinations (g : ParamGrid) : List EloParams :=
  g.k_factor.flatMap fun kf =>
    g.home_advantage.flatMap fun ha =>
      g.margin_factor.flatMap fun mf =>
        g.season_carryover.flatMap fun sc =>
          g.max_margin.map fun mm =>
            { base_rating := g.base_rating.headI
              k_factor := kf
              home_advantage := ha
              margin_factor := mf
              season_carryover := sc
              max_margin := mm }

/-- Mean (`np.mean`) over a list of fold losses. -/
noncomputable def listMean (l : List ℝ) : ℝ := l.sum / l.length

/-- The candidate loop of `parameter_tuning`: per candidate the score is
the mean of its cross-validation fold log-losses (`avg_score =
np.mean(cv_scores)`), and `if avg_score < best_score: best_score, best_params
= avg_score, params` with `best_score` starting at float inf and
`best_params` at `None` — modelled as an `Option` accumulator, `none`
standing for the initial infinite score. The per-fold losses (training a
fresh model on the training segment of the fold and scoring its test segment)
are abstracted as the function `cvScores`. -/
noncomputable def tuneLoop (cvScores : EloParams → List ℝ) :
    Option (EloParams × ℝ) → List EloParams → Option (EloParams × ℝ)
  | best, [] => best
  | best, c :: rest =>
      let avg := listMean (cvScores c)
      let best' := match best with
        | none => some (c, avg)
        | some (bp, bs) => if avg < bs then some (c, avg) else some (bp, bs)
      tuneLoop cvScores best' rest

/-- Returned `best_params`/`best_score` pair of `parameter_tuning`. -/
noncomputable def parameterTuningBest (cands : List EloParams)
    (cvScores : EloParams → List ℝ) : Option (EloParams × ℝ) :=
  tuneLoop cvScores none cands

/-! Concrete instances used by witnesses and counterexamples. -/

/-- Parameters with zero home advantage (other values as the defaults of
`AFLEloModel.__init__`). -/
noncomputable def P0 : EloParams :=
  { base_rating := 1500, k_factor := 20, home_advantage := 0,
    margin_factor := 0.3, season_carryover := 0.6, max_margin := 120 }

/-- A store with two registered teams, both rated 1500. -/
noncomputable def S0 : RatingStore := ⟨{"A", "B"}, fun _ => 1500⟩

/-- Parameters matching the season-carryover scenario of the spec. -/
noncomputable def P4 : EloParams :=
  { base_rating := 1500, k_factor := 20, home_advantage := 50,
    margin_factor := 0.3, season_carryover := 0.75, max_margin := 120 }

/-- A one-team store rated 1700. -/
noncomputable def S4 : RatingStore := ⟨{"A"}, fun _ => 1700⟩

/-- C4: `apply_season_carryover` maps every registered rating `r` to
`base_rating + season_carryover * (r - base_rating)`, leaves the
registered-team set and all unregistered entries untouched; with
carryover `1` every rating is unchanged, and with carryover `0` every
registered rating becomes exactly the base rating. -/
theorem apply_season_carryover_spec (p : EloParams) (s : RatingStore) :
    (∀ t ∈ s.teams, (applySeasonCarryover p s).rating t
        = p.base_rating + p.season_carryover * (s.rating t - p.base_rating))
    ∧ (applySeasonCarryover p s).teams = s.teams
    ∧ (∀ t ∉ s.teams, (applySeasonCarryover p s).rating t = s.rating t)
    ∧ (p.season_carryover = 1 → ∀ t, (applySeasonCarryover p s).rating t = s.rating t)
    ∧ (p.season_carryover = 0 → ∀ t ∈ s.teams,
        (applySeasonCarryover p s).rating t = p.base_rating) := by
  refine ⟨fun t ht => by simp [applySeasonCarryover, ht], rfl,
    fun t ht => by simp [applySeasonCarryover, ht], fun h1 t => ?_, fun h0 t ht => ?_⟩
  · by_cases ht : t ∈ s.teams
    · show (if t ∈ s.teams then _ else _) = _
      rw [if_pos ht, h1]
      ring
    · show (if t ∈ s.teams then _ else _) = _
      rw [if_neg ht]
  · show (if t ∈ s.teams then _ else _) = _
    rw [if_pos ht, h0]
    ring

/-- Witness for C4 at the concrete carryover scenario: team rated 1700,
base 1500, carryover 0.75, regressed to 1650. -/
theorem apply_season_carryover_spec_witness :
    "A" ∈ S4.teams
    ∧ (applySeasonCarryover P4 S4).rating "A"
        = P4.base_rating + P4.season_carryover * (S4.rating "A" - P4.base_rating)
    ∧ (applySeasonCarryover P4 S4).rating "A" = 1650 := by
  have hA : "A" ∈ S4.teams := by simp [S4]
  refine ⟨hA, (apply_season_carryover_spec P4 S4).1 "A" hA, ?_⟩
  rw [(apply_season_carryover_spec P4 S4).1 "A" hA]
  show (1500 : ℝ) + 0.75 * (1700 - 1500) = 1650
  norm_num

/-- C10: every candidate that the grid loops of `parameter_tuning` build
takes its `base_rating` from the first element of the `base_rating` grid
list; the remaining `base_rating` grid values are never used. -/
theorem parameter_tuning_base_rating_fixed (g : ParamGrid) :
    ∀ c ∈ paramCombinations g, c.base_rating = g.base_rating.headI := by
  intro c hc
  simp only [paramCombinations, List.mem_flatMap, List.mem_map] at hc
  obtain ⟨kf, -, ha, -, mf, -, sc, -, mm, -, rfl⟩ := hc
  rfl

/-- A grid offering two `base_rating` values. -/
noncomputable def G10 : ParamGrid := ⟨[1500, 1600], [20], [50], [0.3], [0.6], [120]⟩

/-- The single candidate generated from `G10`. -/
noncomputable def G10cand : EloParams :=
  { base_rating := 1500, k_factor := 20, home_advantage := 50,
    margin_factor := 0.3, season_carryover := 0.6, max_margin := 120 }

/-- Witness for C10: on a grid listing base ratings 1500 and 1600, the
generated candidate uses the first value 1500; 1600 is in the grid but in
no candidate. -/
theorem parameter_tuning_base_rating_fixed_witness :
    G10cand ∈ paramCombinations G10
    ∧ G10cand.base_rating = G10.base_rating.headI
    ∧ G10.base_rating.headI = 1500
    ∧ (1600 : ℝ) ∈ G10.base_rating := by
  have hm : G10cand ∈ paramCombinations G10 := by
    simp [paramCombinations, G10, G10cand]
  exact ⟨hm, parameter_tuning_base_rating_fixed G10 G10cand hm, rfl, by simp [G10]⟩

/-- C9: a missing file, malformed document, or document lacking a
required key makes `load_model` return the failure flag with no model
state installed — no default parameters or ratings are substituted — and
any subsequent win-probability computation through the predictor yields
no value instead of proceeding. -/
theorem load_model_failure_fatal (doc : Option ModelDoc) (h : docBad doc) :
    load_model doc = (false, none)
    ∧ ∀ home away, predictorWinProbability (load_model doc).2 home away = none := by
  have hnone : loadModelState doc = none := by
    cases doc with
    | none => rfl
    | some d =>
      obtain ⟨pars, tr⟩ := d
      cases pars with
      | none => rfl
      | some pd =>
        obtain ⟨br, kf, ha, mf, sc, mm⟩ := pd
        simp only [docBad] at h
        cases br <;> cases kf <;> cases ha <;> cases mf <;> cases sc <;> cases mm <;>
          cases tr <;> simp_all [loadModelState]
  refine ⟨?_, fun home away => ?_⟩ <;> simp [load_model, hnone, predictorWinProbability]

/-- A document with all required keys except `max_margin`. -/
noncomputable def badDoc : ModelDoc :=
  ⟨some ⟨some 1500, some 20, some 50, some 0.3, some 0.6, none⟩, some [("A", 1500)]⟩

/-- Witness for C9 at two concrete failures: a missing file (no document)
and a document lacking the `max_margin` parameter key. -/
theorem load_model_failure_fatal_witness :
    docBad none ∧ load_model none = (false, none)
    ∧ predictorWinProbability (load_model none).2 "A" "B" = none
    ∧ docBad (some badDoc) ∧ load_model (some badDoc) = (false, none) := by
  have h1 : docBad (none : Option ModelDoc) := trivial
  have h2 : docBad (some badDoc) := by
    simp [docBad, badDoc]
  exact ⟨h1, (load_model_failure_fatal none h1).1,
    (load_model_failure_fatal none h1).2 "A" "B", h2,
    (load_model_failure_fatal (some badDoc) h2).1⟩

/-! Lemmas about the logistic win-probability formula. -/

/-- Powers of 10 are positive. -/
lemma ten_rpow_pos (x : ℝ) : 0 < (10 : ℝ) ^ x :=
  Real.rpow_pos_of_pos (by norm_num) x

/-- The logistic value is positive. -/
lemma winProbFormula_pos (rh adv ra : ℝ) : 0 < winProbFormula rh adv ra := by
  unfold winProbFormula
  positivity

/-- The logistic value is below one. -/
lemma winProbFormula_lt_one (rh adv ra : ℝ) : winProbFormula rh adv ra < 1 := by
  unfold winProbFormula
  have h := ten_rpow_pos (-((rh + adv) - ra) / 400)
  rw [div_lt_one (by linarith)]
  linarith

/-- With a zero adjusted difference the logistic value is exactly one half. -/
lemma winProbFormula_half {rh adv ra : ℝ} (h : (rh + adv) - ra = 0) :
    winProbFormula rh adv ra = 1 / 2 := by
  unfold winProbFormula
  rw [h]
  norm_num [Real.rpow_zero]

/-- The logistic value is strictly increasing in the adjusted difference. -/
lemma winProbFormula_strict_mono {rh1 ra1 rh2 ra2 adv : ℝ}
    (h : (rh1 + adv) - ra1 < (rh2 + adv) - ra2) :
    winProbFormula rh1 adv ra1 < winProbFormula rh2 adv ra2 := by
  unfold winProbFormula
  have hexp : -((rh2 + adv) - ra2) / 400 < -((rh1 + adv) - ra1) / 400 := by linarith
  have hr : (10 : ℝ) ^ (-((rh2 + adv) - ra2) / 400) < 10 ^ (-((rh1 + adv) - ra1) / 400) :=
    (Real.rpow_lt_rpow_left_iff (by norm_num)).2 hexp
  have h1 : 0 < 1 + (10 : ℝ) ^ (-((rh1 + adv) - ra1) / 400) := by positivity
  have h2 : 0 < 1 + (10 : ℝ) ^ (-((rh2 + adv) - ra2) / 400) := by positivity
  exact (one_div_lt_one_div h1 h2).2 (by linarith)

/-- C2: `calculate_win_probability` computes the logistic
`1/(1 + 10 ^ (-((home + advantage) - away)/400))` over the two `.get`
reads and mutates nothing; the result is strictly between 0 and 1, is
exactly `0.5` whenever the adjusted rating difference is zero (in
particular for equal ratings with zero home advantage), is strictly
increasing in the home rating, and strictly decreasing in the away
rating. -/
theorem calculate_win_probability_spec (p : EloParams) (s s' : RatingStore)
    (home away : String) :
    winProbability p s home away
      = 1 / (1 + (10 : ℝ) ^ (-((getRating p s home + p.home_advantage)
          - getRating p s away) / 400))
    ∧ (0 < winProbability p s home away ∧ winProbability p s home away < 1)
    ∧ ((getRating p s home + p.home_advantage) - getRating p s away = 0 →
        winProbability p s home away = 1 / 2)
    ∧ (getRating p s home < getRating p s' home →
        getRating p s' away = getRating p s away →
        winProbability p s home away < winProbability p s' home away)
    ∧ (getRating p s away < getRating p s' away →
        getRating p s' home = getRating p s home →
        winProbability p s' home away < winProbability p s home away) := by
  refine ⟨rfl, ⟨winProbFormula_pos _ _ _, winProbFormula_lt_one _ _ _⟩,
    fun h => winProbFormula_half h, fun hlt heq => ?_, fun hlt heq => ?_⟩
  · exact winProbFormula_strict_mono (by rw [heq]; linarith)
  · exact winProbFormula_strict_mono (by rw [heq]; linarith)

/-- A store where team A is rated 1600 and every other team 1500. -/
noncomputable def S2 : RatingStore :=
  ⟨{"A", "B"}, fun t => if t = "A" then 1600 else 1500⟩

/-- Witness for C2: equal ratings with zero home advantage give
probability exactly one half, and raising the home rating from 1500 to
1600 strictly raises the probability. -/
theorem calculate_win_probability_spec_witness :
    ((getRating P0 S0 "A" + P0.home_advantage) - getRating P0 S0 "B" = 0
      ∧ winProbability P0 S0 "A" "B" = 1 / 2)
    ∧ (getRating P0 S0 "A" < getRating P0 S2 "A"
      ∧ getRating P0 S2 "B" = getRating P0 S0 "B"
      ∧ winProbability P0 S0 "A" "B" < winProbability P0 S2 "A" "B") := by
  have h0 : (getRating P0 S0 "A" + P0.home_advantage) - getRating P0 S0 "B" = 0 := by
    norm_num [getRating, P0, S0]
  have hlt : getRating P0 S0 "A" < getRating P0 S2 "A" := by
    norm_num [getRating, P0, S0, S2]
  have hBA : ("B" : String) ≠ "A" := by decide
  have heq : getRating P0 S2 "B" = getRating P0 S0 "B" := by
    norm_num [getRating, P0, S0, S2, hBA]
  exact ⟨⟨h0, (calculate_win_probability_spec P0 S0 S0 "A" "B").2.2.1 h0⟩,
    ⟨hlt, heq, (calculate_win_probability_spec P0 S0 S2 "A" "B").2.2.2.1 hlt heq⟩⟩

/-! Zero-sum rating updates. -/

/-- Summing a function after overwriting two distinct registered keys. -/
lemma sum_double_update (f : String → ℝ) (ts : Finset String) (a b : String)
    (hab : a ≠ b) (haT : a ∈ ts) (hbT : b ∈ ts) (x y : ℝ) :
    ∑ t ∈ ts, Function.update (Function.update f a x) b y t
      = (∑ t ∈ ts, f t) + (x - f a) + (y - f b) := by
  rw [Finset.sum_update_of_mem hbT]
  have haT' : a ∈ ts \ {b} := Finset.mem_sdiff.2 ⟨haT, by simp [hab]⟩
  rw [Finset.sum_update_of_mem haT']
  have hsum1 : ∑ t ∈ ts, f t = f b + ∑ t ∈ ts \ {b}, f t :=
    Finset.sum_eq_add_sum_diff_singleton hbT f
  have hsum2 : ∑ t ∈ ts \ {b}, f t = f a + ∑ t ∈ (ts \ {b}) \ {a}, f t :=
    Finset.sum_eq_add_sum_diff_singleton haT' f
  rw [hsum1, hsum2]
  ring

/-- Applying `+rc` to the home entry and then `-rc` to the away entry of
a store with both teams registered: the two entries move by exactly
`±rc`, the key set is unchanged, and the sum of all stored ratings is
unchanged. -/
lemma setRating_zero_sum (s : RatingStore) (home away : String) (rc : ℝ)
    (hne : home ≠ away) (hh : home ∈ s.teams) (ha : away ∈ s.teams) :
    (setRating (setRating s home (s.rating home + rc)) away
        ((setRating s home (s.rating home + rc)).rating away - rc)).rating home
      = s.rating home + rc
    ∧ (setRating (setRating s home (s.rating home + rc)) away
        ((setRating s home (s.rating home + rc)).rating away - rc)).rating away
      = s.rating away - rc
    ∧ storeSum (setRating (setRating s home (s.rating home + rc)) away
        ((setRating s home (s.rating home + rc)).rating away - rc))
      = storeSum s := by
  have hne' : away ≠ home := hne.symm
  have hinner : (setRating s home (s.rating home + rc)).rating away = s.rating away := by
    simp [setRating, Function.update_apply, hne']
  refine ⟨?_, ?_, ?_⟩
  · simp [setRating, Function.update_apply, hne, hne']
  · simp [setRating, Function.update_apply, hne, hne']
  · have hteams : (setRating (setRating s home (s.rating home + rc)) away
        ((setRating s home (s.rating home + rc)).rating away - rc)).teams = s.teams := by
      simp [setRating, Finset.insert_eq_self.2 hh, Finset.insert_eq_self.2 ha]
    unfold storeSum
    rw [hteams, hinner]
    show ∑ t ∈ s.teams,
        Function.update (Function.update s.rating home (s.rating home + rc)) away
          (s.rating away - rc) t = _
    rw [sum_double_update s.rating s.teams home away hne hh ha]
    ring

/-- C1: with both teams registered and distinct, `update_ratings` (both
the training-model method and the `SimpleEloUpdater` variant) moves the
home rating by exactly `+rating_change` and the away rating by exactly
`-rating_change`, so the deltas cancel and the sum of all stored team
ratings is unchanged. -/
theorem update_ratings_zero_sum (p : EloParams) (s : RatingStore) (home away : String)
    (hs as : ℤ) (hne : home ≠ away) (hh : home ∈ s.teams) (ha : away ∈ s.teams) :
    ((update_ratings p s home away hs as).1.rating home
        = s.rating home + (update_ratings p s home away hs as).2.rating_change)
    ∧ ((update_ratings p s home away hs as).1.rating away
        = s.rating away - (update_ratings p s home away hs as).2.rating_change)
    ∧ storeSum (update_ratings p s home away hs as).1 = storeSum s
    ∧ ((simpleUpdateRatings p s home away hs as).1.rating home
        = s.rating home + (simpleUpdateRatings p s home away hs as).2)
    ∧ ((simpleUpdateRatings p s home away hs as).1.rating away
        = s.rating away - (simpleUpdateRatings p s home away hs as).2)
    ∧ storeSum (simpleUpdateRatings p s home away hs as).1 = storeSum s := by
  have e1 : registerTeam p s home = s := by simp [registerTeam, hh]
  have e2 : registerTeam p s away = s := by simp [registerTeam, ha]
  have hz := setRating_zero_sum s home away
    (p.k_factor * marginMultiplier p ((hs - as : ℤ) : ℝ)
      * (actualResult hs as - winProbability p s home away)) hne hh ha
  refine ⟨?_, ?_, ?_, ?_, ?_, ?_⟩ <;>
    simp only [update_ratings, simpleUpdateRatings, e1, e2] <;>
    [exact hz.1; exact hz.2.1; exact hz.2.2; exact hz.1; exact hz.2.1; exact hz.2.2]

/-- Witness for C1 at a concrete match: A (rated 1500) hosts B (rated
1500) and wins 100 to 80; the sum of stored ratings is preserved. -/
theorem update_ratings_zero_sum_witness :
    ((update_ratings P0 S0 "A" "B" 100 80).1.rating "A"
        = S0.rating "A" + (update_ratings P0 S0 "A" "B" 100 80).2.rating_change)
    ∧ ((update_ratings P0 S0 "A" "B" 100 80).1.rating "B"
        = S0.rating "B" - (update_ratings P0 S0 "A" "B" 100 80).2.rating_change)
    ∧ storeSum (update_ratings P0 S0 "A" "B" 100 80).1 = storeSum S0 := by
  have h := update_ratings_zero_sum P0 S0 "A" "B" 100 80 (by decide)
    (by simp [S0]) (by simp [S0])
  exact ⟨h.1, h.2.1, h.2.2.1⟩

/-! Predicted-winner tie-breaking. -/

/-- Registering team A in `S0` is a no-op. -/
lemma registerTeam_S0_A : registerTeam P0 S0 "A" = S0 := by
  simp [registerTeam, S0]

/-- Registering team B in `S0` is a no-op. -/
lemma registerTeam_S0_B : registerTeam P0 S0 "B" = S0 := by
  simp [registerTeam, S0]

/-- With equal ratings and zero home advantage the win probability is 0.5. -/
lemma winProb_P0_S0 : winProbability P0 S0 "A" "B" = 1 / 2 :=
  winProbFormula_half (by norm_num [getRating, P0, S0])

/-- The stored probability of the concrete `update_ratings` record. -/
lemma update_P0_S0_prob :
    (update_ratings P0 S0 "A" "B" 100 80).2.home_win_probability
      = winProbability P0 S0 "A" "B" := by
  simp only [update_ratings, registerTeam_S0_A, registerTeam_S0_B]

/-- The stored winner of the concrete `update_ratings` record. -/
lemma update_P0_S0_winner :
    (update_ratings P0 S0 "A" "B" 100 80).2.predicted_winner
      = if winProbability P0 S0 "A" "B" > 0.5 then "A" else "B" := by
  simp only [update_ratings, registerTeam_S0_A, registerTeam_S0_B]

/-- The stored probability of the concrete `predict_match` record. -/
lemma predict_P0_S0_prob :
    (predict_match P0 S0 "A" "B").2.home_win_probability
      = winProbability P0 S0 "A" "B" := by
  simp only [predict_match, registerTeam_S0_A, registerTeam_S0_B]

/-- The stored winner of the concrete `predict_match` record. -/
lemma predict_P0_S0_winner :
    (predict_match P0 S0 "A" "B").2.predicted_winner
      = if winProbability P0 S0 "A" "B" > 0.5 then "A" else "B" := by
  simp only [predict_match, registerTeam_S0_A, registerTeam_S0_B]

/-- C7 counterexample: with equal ratings (1500) and zero home advantage
the home-win probability is exactly 0.5, yet both `update_ratings` and
`predict_match` record the away team B as `predicted_winner` — the tie is
broken toward the away team, not the home team. -/
theorem predicted_winner_tie_counterexample :
    (update_ratings P0 S0 "A" "B" 100 80).2.home_win_probability = 1 / 2
    ∧ (update_ratings P0 S0 "A" "B" 100 80).2.predicted_winner = "B"
    ∧ (predict_match P0 S0 "A" "B").2.home_win_probability = 1 / 2
    ∧ (predict_match P0 S0 "A" "B").2.predicted_winner = "B"
    ∧ ("B" : String) ≠ "A" := by
  refine ⟨?_, ?_, ?_, ?_, by decide⟩
  · rw [update_P0_S0_prob, winProb_P0_S0]
  · rw [update_P0_S0_winner, winProb_P0_S0, if_neg (by norm_num)]
  · rw [predict_P0_S0_prob, winProb_P0_S0]
  · rw [predict_P0_S0_winner, winProb_P0_S0, if_neg (by norm_num)]

/-- C7 amended: in every produced prediction record (training-side
`update_ratings` record and predictor-side `predict_match` record) the
predicted winner is the home team iff the home-win probability exceeds
0.5, and otherwise — including a probability of exactly 0.5 — the away
team. -/
theorem predicted_winner_spec (p : EloParams) (s : RatingStore) (home away : String)
    (hs as : ℤ) :
    ((update_ratings p s home away hs as).2.home_win_probability > 0.5 →
        (update_ratings p s home away hs as).2.predicted_winner = home)
    ∧ ((update_ratings p s home away hs as).2.home_win_probability ≤ 0.5 →
        (update_ratings p s home away hs as).2.predicted_winner = away)
    ∧ ((predict_match p s home away).2.home_win_probability > 0.5 →
        (predict_match p s home away).2.predicted_winner = home)
    ∧ ((predict_match p s home away).2.home_win_probability ≤ 0.5 →
        (predict_match p s home away).2.predicted_winner = away) := by
  refine ⟨fun h => ?_, fun h => ?_, fun h => ?_, fun h => ?_⟩ <;>
    simp only [update_ratings, predict_match] at h ⊢
  · exact if_pos h
  · exact if_neg (not_lt.2 h)
  · exact if_pos h
  · exact if_neg (not_lt.2 h)

/-- Witness for the amended C7: at probability exactly 0.5 the recorded
winner is the away team B. -/
theorem predicted_winner_spec_witness :
    (update_ratings P0 S0 "A" "B" 100 80).2.home_win_probability ≤ 0.5
    ∧ (update_ratings P0 S0 "A" "B" 100 80).2.predicted_winner = "B" := by
  have hle : (update_ratings P0 S0 "A" "B" 100 80).2.home_win_probability ≤ 0.5 := by
    rw [update_P0_S0_prob, winProb_P0_S0]
    norm_num
  exact ⟨hle, (predicted_winner_spec P0 S0 "A" "B" 100 80).2.1 hle⟩

/-! Draw handling in the accuracy metric. -/

/-- A recorded prediction of a drawn match with home probability 0.9. -/
noncomputable def drawPred : PredInfo :=
  { home_team := "A", away_team := "B", pre_match_home_rating := 1500,
    pre_match_away_rating := 1500, home_win_probability := 0.9,
    away_win_probability := 0.1, predicted_winner := "A",
    actual_result := ResultTag.draw, margin := 0, rating_change := 0 }

/-- Unfolding of the per-record accuracy condition of `evaluate_model`. -/
lemma evalCorrect_iff (r : ResultTag) (prob : ℝ) :
    evalCorrect (evalYTrue r) (evalBinaryPred prob)
      ↔ ((r = ResultTag.home_win ∧ prob ≥ 0.5)
        ∨ (r = ResultTag.away_win ∧ prob < 0.5)
        ∨ r = ResultTag.draw) := by
  have h05 : (0.5 : ℝ) = 1 / 2 := by norm_num
  rcases le_or_lt (1 / 2 : ℝ) prob with hp | hp
  · cases r <;>
      simp [evalCorrect, evalYTrue, evalBinaryPred, ge_iff_le, h05, hp, not_lt.2 hp]
  · have hnp : ¬ ((1 : ℝ) / 2 ≤ prob) := not_le.2 hp
    cases r <;>
      simp [evalCorrect, evalYTrue, evalBinaryPred, ge_iff_le, h05, hp, hnp]

/-- C8 counterexample: a drawn match whose stored home probability is
0.9 (so the prediction-time winner label is the home side, not a draw)
is nevertheless counted as correct — `evaluate_model` counts every drawn
match as correct unconditionally. -/
theorem evaluate_model_draw_counterexample :
    drawPred.actual_result = ResultTag.draw
    ∧ drawPred.home_win_probability > 0.5
    ∧ drawPred.predicted_winner = drawPred.home_team
    ∧ evalAccuracy [drawPred] = 1 := by
  refine ⟨rfl, by norm_num [drawPred], rfl, ?_⟩
  have hc : evalCorrect (evalYTrue drawPred.actual_result)
      (evalBinaryPred drawPred.home_win_probability) :=
    (evalCorrect_iff _ _).2 (Or.inr (Or.inr rfl))
  unfold evalAccuracy
  rw [if_neg (by simp)]
  simp [List.countP_cons, List.countP_nil, hc]

/-- C8 amended: for a nonempty prediction list, the accuracy of
`evaluate_model` is the fraction of records where either a non-drawn
match has its 0.5-thresholded prediction (home iff probability ≥ 0.5)
matching the actual winner, or the match is a draw — drawn matches count
as correct unconditionally, regardless of the stored probability. -/
theorem evaluate_model_accuracy_spec (preds : List PredInfo) (hne : preds ≠ []) :
    evalAccuracy preds
      = ((preds.countP fun pr => decide
          ((pr.actual_result = ResultTag.home_win ∧ pr.home_win_probability ≥ 0.5)
            ∨ (pr.actual_result = ResultTag.away_win ∧ pr.home_win_probability < 0.5)
            ∨ pr.actual_result = ResultTag.draw)) : ℝ) / preds.length := by
  unfold evalAccuracy
  rw [if_neg hne]
  congr 2
  apply List.countP_congr
  intro pr _
  simp only [decide_eq_true_eq]
  exact evalCorrect_iff pr.actual_result pr.home_win_probability

/-- Witness for the amended C8 at the one-element list holding the drawn
match record. -/
theorem evaluate_model_accuracy_spec_witness :
    ([drawPred] : List PredInfo) ≠ []
    ∧ evalAccuracy [drawPred]
      = ((([drawPred] : List PredInfo).countP fun pr => decide
          ((pr.actual_result = ResultTag.home_win ∧ pr.home_win_probability ≥ 0.5)
            ∨ (pr.actual_result = ResultTag.away_win ∧ pr.home_win_probability < 0.5)
            ∨ pr.actual_result = ResultTag.draw)) : ℝ)
            / ([drawPred] : List PredInfo).length :=
  ⟨by simp, evaluate_model_accuracy_spec [drawPred] (by simp)⟩

/-! Margin capping and monotonicity of the rating delta. -/

/-- The absolute capped margin is the capped absolute margin. -/
lemma abs_cappedMargin (p : EloParams) (hmm : 0 ≤ p.max_margin) (m : ℝ) :
    |cappedMargin p m| = min |m| p.max_margin := by
  have hmin : 0 ≤ min |m| p.max_margin := le_min (abs_nonneg m) hmm
  unfold cappedMargin
  rw [abs_mul, abs_of_nonneg hmin]
  rcases lt_trichotomy m 0 with hm | rfl | hm
  · rw [Real.sign_of_neg hm]
    norm_num
  · rw [Real.sign_zero]
    simp [min_eq_left hmm]
  · rw [Real.sign_of_pos hm]
    norm_num

/-- The margin multiplier is nonnegative. -/
lemma marginMultiplier_nonneg (p : EloParams) (hmf : 0 ≤ p.margin_factor)
    (hmm : 0 ≤ p.max_margin) (m : ℝ) : 0 ≤ marginMultiplier p m := by
  unfold marginMultiplier
  by_cases hf : p.margin_factor > 0
  · rw [if_pos hf]
    have h1 : 0 ≤ |cappedMargin p m| * p.margin_factor :=
      mul_nonneg (abs_nonneg _) hmf
    have h2 : 0 ≤ p.max_margin * p.margin_factor := mul_nonneg hmm hmf
    exact div_nonneg (Real.log_nonneg (by linarith)) (Real.log_nonneg (by linarith))
  · rw [if_neg hf]
    norm_num

/-- The margin multiplier is nondecreasing in the absolute margin. -/
lemma marginMultiplier_le (p : EloParams) (hmf : 0 ≤ p.margin_factor)
    (hmm : 0 < p.max_margin) {m1 m2 : ℝ} (h : |m1| ≤ |m2|) :
    marginMultiplier p m1 ≤ marginMultiplier p m2 := by
  unfold marginMultiplier
  by_cases hf : p.margin_factor > 0
  · rw [if_pos hf, if_pos hf]
    have hden : 0 < Real.log (1 + p.max_margin * p.margin_factor) :=
      Real.log_pos (by nlinarith)
    apply div_le_div_of_nonneg_right _ hden.le
    apply Real.log_le_log
    · have : 0 ≤ |cappedMargin p m1| * p.margin_factor :=
        mul_nonneg (abs_nonneg _) hmf
      linarith
    · have hcap : |cappedMargin p m1| ≤ |cappedMargin p m2| := by
        rw [abs_cappedMargin p hmm.le, abs_cappedMargin p hmm.le]
        exact min_le_min h le_rfl
      have := mul_le_mul_of_nonneg_right hcap hmf
      linarith
  · rw [if_neg hf, if_neg hf]

/-- Margins at or above the cap all give the same multiplier. -/
lemma marginMultiplier_cap (p : EloParams) (hmm : 0 ≤ p.max_margin) {m1 m2 : ℝ}
    (h1 : p.max_margin ≤ |m1|) (h2 : p.max_margin ≤ |m2|) :
    marginMultiplier p m1 = marginMultiplier p m2 := by
  unfold marginMultiplier
  rw [abs_cappedMargin p hmm, abs_cappedMargin p hmm, min_eq_right h1, min_eq_right h2]

/-- The `rating_change` field of the `update_ratings` record, unfolded. -/
lemma update_ratings_rating_change (p : EloParams) (s : RatingStore)
    (home away : String) (hs as : ℤ) :
    (update_ratings p s home away hs as).2.rating_change
      = p.k_factor * marginMultiplier p ((hs - as : ℤ) : ℝ)
        * (actualResult hs as
            - winProbability p (registerTeam p (registerTeam p s home) away) home away) :=
  rfl

/-- C3: for fixed teams, store and parameters with
`margin_factor ≥ 0` and `max_margin > 0`, and a fixed result direction
(equal `actual_result` values), the absolute rating change is
nondecreasing in the absolute margin; any two margins at or above
`max_margin` give exactly the same rating change; and with
`margin_factor = 0` the margin multiplier is exactly 1 for every margin. -/
theorem margin_monotonicity (p : EloParams) (s : RatingStore) (home away : String)
    (hs1 as1 hs2 as2 : ℤ)
    (hmf : 0 ≤ p.margin_factor) (hmm : 0 < p.max_margin)
    (hdir : actualResult hs1 as1 = actualResult hs2 as2) :
    (|((hs1 - as1 : ℤ) : ℝ)| ≤ |((hs2 - as2 : ℤ) : ℝ)| →
      |(update_ratings p s home away hs1 as1).2.rating_change|
        ≤ |(update_ratings p s home away hs2 as2).2.rating_change|)
    ∧ (p.max_margin ≤ |((hs1 - as1 : ℤ) : ℝ)| → p.max_margin ≤ |((hs2 - as2 : ℤ) : ℝ)| →
      (update_ratings p s home away hs1 as1).2.rating_change
        = (update_ratings p s home away hs2 as2).2.rating_change)
    ∧ (p.margin_factor = 0 → ∀ m : ℝ, marginMultiplier p m = 1) := by
  refine ⟨fun h => ?_, fun h1 h2 => ?_, fun h0 m => ?_⟩
  · rw [update_ratings_rating_change, update_ratings_rating_change, hdir]
    rw [abs_mul, abs_mul, abs_mul, abs_mul]
    rw [abs_of_nonneg (marginMultiplier_nonneg p hmf hmm.le _),
      abs_of_nonneg (marginMultiplier_nonneg p hmf hmm.le _)]
    apply mul_le_mul_of_nonneg_right _ (abs_nonneg _)
    exact mul_le_mul_of_nonneg_left (marginMultiplier_le p hmf hmm h) (abs_nonneg _)
  · rw [update_ratings_rating_change, update_ratings_rating_change, hdir,
      marginMultiplier_cap p hmm.le h1 h2]
  · unfold marginMultiplier
    rw [if_neg (by rw [h0]; exact lt_irrefl 0)]

/-- Witness for C3 at concrete home wins by 10 and by 20 points. -/
theorem margin_monotonicity_witness :
    (0 : ℝ) ≤ P4.margin_factor ∧ (0 : ℝ) < P4.max_margin
    ∧ actualResult 10 0 = actualResult 20 0
    ∧ |((10 - 0 : ℤ) : ℝ)| ≤ |((20 - 0 : ℤ) : ℝ)|
    ∧ |(update_ratings P4 S0 "A" "B" 10 0).2.rating_change|
        ≤ |(update_ratings P4 S0 "A" "B" 20 0).2.rating_change| := by
  have h1 : (0 : ℝ) ≤ P4.margin_factor := by norm_num [P4]
  have h2 : (0 : ℝ) < P4.max_margin := by norm_num [P4]
  have h3 : actualResult 10 0 = actualResult 20 0 := by norm_num [actualResult]
  have h4 : |((10 - 0 : ℤ) : ℝ)| ≤ |((20 - 0 : ℤ) : ℝ)| := by norm_num
  exact ⟨h1, h2, h3, h4, (margin_monotonicity P4 S0 "A" "B" 10 0 20 0 h1 h2 h3).1 h4⟩

/-! Selection of the best parameter candidate. -/

/-- Invariant of the candidate loop with a current best pair: it ends on
a pair whose score is the minimum of the running best and every remaining
mean fold score, kept unchanged unless a strictly better candidate
appears, in which case the result is the first strictly-better-than-all-
predecessors candidate. -/
lemma tuneLoop_some (cvScores : EloParams → List ℝ) :
    ∀ (cands : List EloParams) (bp0 : EloParams) (bs0 : ℝ),
    ∃ bp bs, tuneLoop cvScores (some (bp0, bs0)) cands = some (bp, bs)
      ∧ bs ≤ bs0
      ∧ (∀ c ∈ cands, bs ≤ listMean (cvScores c))
      ∧ ((bp = bp0 ∧ bs = bs0 ∧ ∀ c ∈ cands, bs0 ≤ listMean (cvScores c))
        ∨ (∃ pre post, cands = pre ++ bp :: post ∧ bs = listMean (cvScores bp)
            ∧ bs < bs0 ∧ ∀ c ∈ pre, bs < listMean (cvScores c))) := by
  intro cands
  induction cands with
  | nil =>
    intro bp0 bs0
    exact ⟨bp0, bs0, rfl, le_rfl, by simp, Or.inl ⟨rfl, rfl, by simp⟩⟩
  | cons c rest ih =>
    intro bp0 bs0
    by_cases hc : listMean (cvScores c) < bs0
    · obtain ⟨bp, bs, heq, hle, hall, hcase⟩ := ih c (listMean (cvScores c))
      refine ⟨bp, bs, ?_, by linarith, ?_, ?_⟩
      · rw [show tuneLoop cvScores (some (bp0, bs0)) (c :: rest)
            = tuneLoop cvScores (some (c, listMean (cvScores c))) rest by
              simp [tuneLoop, hc]]
        exact heq
      · intro c' hc'
        rcases List.mem_cons.1 hc' with rfl | hmem
        · exact hle
        · exact hall c' hmem
      · rcases hcase with ⟨rfl, rfl, -⟩ | ⟨pre, post, hsplit, hmean, hlt, hpre⟩
        · exact Or.inr ⟨[], rest, rfl, rfl, hc, by simp⟩
        · refine Or.inr ⟨c :: pre, post, by rw [hsplit, List.cons_append], hmean, by linarith,
            fun c' hc' => ?_⟩
          rcases List.mem_cons.1 hc' with rfl | hmem
          · linarith
          · exact hpre c' hmem
    · obtain ⟨bp, bs, heq, hle, hall, hcase⟩ := ih bp0 bs0
      push_neg at hc
      refine ⟨bp, bs, ?_, hle, ?_, ?_⟩
      · rw [show tuneLoop cvScores (some (bp0, bs0)) (c :: rest)
            = tuneLoop cvScores (some (bp0, bs0)) rest by
              simp [tuneLoop, not_lt.2 hc]]
        exact heq
      · intro c' hc'
        rcases List.mem_cons.1 hc' with rfl | hmem
        · linarith
        · exact hall c' hmem
      · rcases hcase with ⟨hbp, hbs, hrest⟩ | ⟨pre, post, hsplit, hmean, hlt, hpre⟩
        · refine Or.inl ⟨hbp, hbs, fun c' hc' => ?_⟩
          rcases List.mem_cons.1 hc' with rfl | hmem
          · exact hc
          · exact hrest c' hmem
        · refine Or.inr ⟨c :: pre, post, by rw [hsplit, List.cons_append], hmean, hlt, fun c' hc' => ?_⟩
          rcases List.mem_cons.1 hc' with rfl | hmem
          · linarith
          · exact hpre c' hmem

/-- C6: on a nonempty candidate list, `parameter_tuning` returns a
candidate whose score is the mean of its cross-validation fold
log-losses, minimal among all evaluated candidates; every candidate
earlier in iteration order scores strictly worse, so ties are broken
toward the first-encountered candidate. -/
theorem parameter_tuning_selects_min (cands : List EloParams)
    (cvScores : EloParams → List ℝ) (hne : cands ≠ []) :
    ∃ bp bs, parameterTuningBest cands cvScores = some (bp, bs)
      ∧ bs = listMean (cvScores bp)
      ∧ (∀ c ∈ cands, bs ≤ listMean (cvScores c))
      ∧ ∃ pre post, cands = pre ++ bp :: post
          ∧ ∀ c ∈ pre, bs < listMean (cvScores c) := by
  obtain ⟨c, rest, rfl⟩ := List.exists_cons_of_ne_nil hne
  unfold parameterTuningBest
  have hstep : tuneLoop cvScores none (c :: rest)
      = tuneLoop cvScores (some (c, listMean (cvScores c))) rest := by
    simp [tuneLoop]
  obtain ⟨bp, bs, heq, hle, hall, hcase⟩ :=
    tuneLoop_some cvScores rest c (listMean (cvScores c))
  rw [hstep, heq]
  refine ⟨bp, bs, rfl, ?_, ?_, ?_⟩
  · rcases hcase with ⟨rfl, rfl, -⟩ | ⟨pre, post, hsplit, hmean, -, -⟩
    · rfl
    · exact hmean
  · intro c' hc'
    rcases List.mem_cons.1 hc' with rfl | hmem
    · exact hle
    · exact hall c' hmem
  · rcases hcase with ⟨rfl, rfl, -⟩ | ⟨pre, post, hsplit, hmean, hlt, hpre⟩
    · exact ⟨[], rest, rfl, by simp⟩
    · refine ⟨c :: pre, post, by rw [hsplit, List.cons_append], fun c' hc' => ?_⟩
      rcases List.mem_cons.1 hc' with rfl | hmem
      · linarith
      · exact hpre c' hmem

/-- A concrete fold-score assignment giving every candidate the fold
losses 1 and 2. -/
noncomputable def cvS : EloParams → List ℝ := fun _ => [1, 2]

/-- Witness for C6 on a concrete two-candidate list with tied scores. -/
theorem parameter_tuning_selects_min_witness :
    ([G10cand, P4] : List EloParams) ≠ []
    ∧ ∃ bp bs, parameterTuningBest [G10cand, P4] cvS = some (bp, bs)
        ∧ bs = listMean (cvS bp)
        ∧ (∀ c ∈ ([G10cand, P4] : List EloParams), bs ≤ listMean (cvS c))
        ∧ ∃ pre post, ([G10cand, P4] : List EloParams) = pre ++ bp :: post
            ∧ ∀ c ∈ pre, bs < listMean (cvS c) :=
  ⟨by simp, parameter_tuning_selects_min [G10cand, P4] cvS (by simp)⟩

/-! Season-transition timing in the training loop. -/

/-- The events of the stateful loop do not depend on the store and match
the pure event trace. -/
lemma trainLoopGo_events (p : EloParams) :
    ∀ (data : List MatchRec) (y : ℤ) (s : RatingStore),
    (trainLoopGo p y s data).2 = trainEventsGo y data := by
  intro data
  induction data with
  | nil => intro y s; rfl
  | cons m rest ih =>
    intro y s
    by_cases hy : m.year = y
    · simp [trainLoopGo, trainEventsGo, hy, ih]
    · simp [trainLoopGo, trainEventsGo, hy, ih]

/-- The events of `train_elo_model` match the pure event trace. -/
lemma train_elo_model_events (p : EloParams) (s : RatingStore) (data : List MatchRec) :
    (train_elo_model p s data).2 = trainEvents data := by
  cases data with
  | nil => rfl
  | cons m rest => simp [train_elo_model, trainEvents, trainLoopGo_events]

/-- Carryover events in the trace are in bijection with adjacent
year-change pairs. -/
lemma countP_trainEventsGo :
    ∀ (data : List MatchRec) (y : ℤ),
    (trainEventsGo y data).countP isCarryover = transitionsFrom y data := by
  intro data
  induction data with
  | nil => intro y; rfl
  | cons m rest ih =>
    intro y
    by_cases hy : m.year = y
    · simp [trainEventsGo, transitionsFrom, hy, ih, isCarryover, List.countP_cons]
    · simp [trainEventsGo, transitionsFrom, hy, ih, isCarryover, List.countP_cons]
      omega

/-- Every carryover event inside the tail trace is immediately followed
by the first match of the new year, and immediately preceded by a match
of a different year (or sits first, in which case the new year differs
from the year the tail loop started with). -/
lemma trainEventsGo_carryover_shape :
    ∀ (data : List MatchRec) (y0 : ℤ) (pre post : List TrainEvent) (y : ℤ),
    trainEventsGo y0 data = pre ++ TrainEvent.carryover y :: post →
    (∃ m rest, post = TrainEvent.matchUpdate m :: rest ∧ m.year = y)
    ∧ (pre = [] → y ≠ y0)
    ∧ (pre ≠ [] →
        ∃ pre2 m', pre = pre2 ++ [TrainEvent.matchUpdate m'] ∧ m'.year ≠ y) := by
  intro data
  induction data with
  | nil =>
    intro y0 pre post y h
    rw [trainEventsGo] at h
    cases pre <;> simp_all
  | cons m rest ih =>
    intro y0 pre post y h
    rw [trainEventsGo] at h
    by_cases hy : m.year = y0
    · rw [if_neg (by simp [hy]), List.nil_append] at h
      cases pre with
      | nil => simp at h
      | cons e pre2 =>
        simp only [List.cons_append, List.cons.injEq] at h
        obtain ⟨rfl, h2⟩ := h
        obtain ⟨hA, hB1, hB2⟩ := ih m.year pre2 post y h2
        refine ⟨hA, fun hpre => by simp at hpre, fun _ => ?_⟩
        rcases eq_or_ne pre2 [] with rfl | hne
        · exact ⟨[], m, rfl, (hB1 rfl).symm⟩
        · obtain ⟨pre3, m', rfl, hm'⟩ := hB2 hne
          exact ⟨TrainEvent.matchUpdate m :: pre3, m', rfl, hm'⟩
    · rw [if_pos hy] at h
      cases pre with
      | nil =>
        simp only [List.cons_append, List.nil_append, List.cons.injEq,
          TrainEvent.carryover.injEq] at h
        obtain ⟨rfl, hpost⟩ := h
        exact ⟨⟨m, trainEventsGo m.year rest, hpost.symm, rfl⟩,
          fun _ => hy, fun hpre => absurd rfl hpre⟩
      | cons e pre2 =>
        simp only [List.cons_append, List.cons.injEq] at h
        obtain ⟨rfl, h2⟩ := h
        cases pre2 with
        | nil => simp at h2
        | cons e2 pre3 =>
          simp only [List.cons_append, List.nil_append, List.cons.injEq] at h2
          obtain ⟨rfl, h3⟩ := h2
          obtain ⟨hA, hB1, hB2⟩ := ih m.year pre3 post y h3
          refine ⟨hA, fun hpre => by simp at hpre, fun _ => ?_⟩
          rcases eq_or_ne pre3 [] with rfl | hne
          · exact ⟨[TrainEvent.carryover m.year], m, rfl, (hB1 rfl).symm⟩
          · obtain ⟨pre4, m', rfl, hm'⟩ := hB2 hne
            exact ⟨TrainEvent.carryover m.year :: TrainEvent.matchUpdate m :: pre4,
              m', rfl, hm'⟩

/-- C5: in the event trace of the training loop, (i) the stateful loop
emits exactly the pure trace; (ii) the number of season-carryover
regressions equals the number of adjacent match pairs with differing
season years — so each transition, including one across a multi-year
gap, triggers exactly one regression; (iii) the trace of nonempty data
starts with the first match update, so no regression precedes the first
match; (iv) every carryover of year `y` is immediately followed by the
first processed match of year `y` and immediately preceded by a match
update of a different year. -/
theorem season_transition_spec (p : EloParams) (s : RatingStore) (data : List MatchRec) :
    (train_elo_model p s data).2 = trainEvents data
    ∧ (trainEvents data).countP isCarryover = countTransitions data
    ∧ (∀ m rest, data = m :: rest →
        ∃ evs, trainEvents data = TrainEvent.matchUpdate m :: evs)
    ∧ (∀ pre y post, trainEvents data = pre ++ TrainEvent.carryover y :: post →
        (∃ m rest, post = TrainEvent.matchUpdate m :: rest ∧ m.year = y)
        ∧ ∃ pre2 m', pre = pre2 ++ [TrainEvent.matchUpdate m'] ∧ m'.year ≠ y) := by
  refine ⟨train_elo_model_events p s data, ?_, ?_, ?_⟩
  · cases data with
    | nil => rfl
    | cons m rest =>
      simp [trainEvents, List.countP_cons, isCarryover, countTransitions,
        countP_trainEventsGo]
  · intro m rest hdata
    subst hdata
    exact ⟨trainEventsGo m.year rest, rfl⟩
  · intro pre y post h
    cases data with
    | nil =>
      rw [trainEvents] at h
      cases pre <;> simp_all
    | cons m rest =>
      rw [trainEvents] at h
      cases pre with
      | nil => simp at h
      | cons e pre2 =>
        simp only [List.cons_append, List.cons.injEq] at h
        obtain ⟨rfl, h2⟩ := h
        obtain ⟨hA, hB1, hB2⟩ := trainEventsGo_carryover_shape rest m.year pre2 post y h2
        refine ⟨hA, ?_⟩
        rcases eq_or_ne pre2 [] with rfl | hne
        · exact ⟨[], m, rfl, (hB1 rfl).symm⟩
        · obtain ⟨pre3, m', rfl, hm'⟩ := hB2 hne
          exact ⟨TrainEvent.matchUpdate m :: pre3, m', rfl, hm'⟩

/-- First concrete match: played in season 2020. -/
def M1 : MatchRec :=
  { match_id := 1, home_team := "A", away_team := "B",
    hscore := 100, ascore := 80, year := 2020 }

/-- Second concrete match: played in season 2022, a two-year gap later. -/
def M2 : MatchRec :=
  { match_id := 2, home_team := "B", away_team := "A",
    hscore := 70, ascore := 90, year := 2022 }

/-- Witness for C5 on a stream with a multi-year gap (2020 then 2022):
exactly one carryover is emitted, placed between the two match updates. -/
theorem season_transition_spec_witness :
    trainEvents [M1, M2]
      = [TrainEvent.matchUpdate M1]
        ++ TrainEvent.carryover 2022 :: [TrainEvent.matchUpdate M2]
    ∧ ((∃ m rest, ([TrainEvent.matchUpdate M2] : List TrainEvent)
          = TrainEvent.matchUpdate m :: rest ∧ m.year = 2022)
      ∧ ∃ pre2 m', ([TrainEvent.matchUpdate M1] : List TrainEvent)
          = pre2 ++ [TrainEvent.matchUpdate m'] ∧ m'.year ≠ 2022)
    ∧ (trainEvents [M1, M2]).countP isCarryover = countTransitions [M1, M2]
    ∧ countTransitions [M1, M2] = 1 := by
  have h : trainEvents [M1, M2]
      = [TrainEvent.matchUpdate M1]
        ++ TrainEvent.carryover 2022 :: [TrainEvent.matchUpdate M2] := by decide
  exact ⟨h, (season_transition_spec P0 S0 [M1, M2]).2.2.2 [TrainEvent.matchUpdate M1]
      2022 [TrainEvent.matchUpdate M2] h,
    (season_transition_spec P0 S0 [M1, M2]).2.1, by decide⟩
